import Mathlib

/-!
# Shallow embedding of the bitnode-bot delta-reporting pipeline

This file embeds the pure core of the repository's two bot scripts:

* `src/bot.py`   — the scheduled bot (namespace `Bot`): `pct_change`,
  `human_country`, `summarize_by_country`, `format_report` (its `lines`
  list; the header line only adds a wall-clock timestamp), `send_telegram`
  (modelled as the list of HTTP requests it issues), `load_state`,
  and the per-cycle persistence logic of `main`.
* `src/bot_once.py` — the one-shot bot (namespace `Once`): `fmt_change`,
  `summarize_by_country`, `send_chunked`, `save_state`/`load_state`
  (modelled over a JSON AST, since `json.dump`/`json.load` pair through
  the concrete syntax), and `main`'s persistence logic.

Python `int` is modelled as `ℤ`, `float` as `ℚ` (the percentage formulas
are exact on the rationals; `float('inf')` becomes an explicit sentinel
constructor).  Python strings are Lean `String`s, except in the chunking
code where we work over `List Char` (a Python `str` is a sequence of
code points).  A Bitnodes node record is modelled as a `List (Option String)`:
only field index 7 (the country code, possibly `null`) is ever consumed,
a too-short list models a record where `arr[7]` raises `IndexError`.
-/

/-- Digits of a natural number, most significant first, as in Python `str(n)`. -/
def natDigits (n : ℕ) : List Char :=
  Nat.toDigits 10 n

/-- Insert a comma after every third character; input and output are
least-significant-first digit lists.  Mirrors Python `f"{n:,}"` grouping. -/
def commaRev : List Char → List Char
  | d1 :: d2 :: d3 :: d4 :: rest => d1 :: d2 :: d3 :: ',' :: commaRev (d4 :: rest)
  | ds => ds

/-- Python `f"{n:,}"` for a natural number. -/
def fmtCommaNat (n : ℕ) : String :=
  String.mk (commaRev (natDigits n).reverse).reverse

/-- Python `f"{i:,}"` for an `int` (a leading minus sign for negatives). -/
def fmtCommaInt (i : ℤ) : String :=
  if i < 0 then "-" ++ fmtCommaNat i.natAbs else fmtCommaNat i.natAbs

/-- Two-digit zero-padded rendering of a value below 100. -/
def pad2 (n : ℕ) : String :=
  if n < 10 then "0" ++ Nat.repr n else Nat.repr n

/-- Python `f"{x:.2f}"` on a finite value, with the float modelled as an
exact rational: `m` is `100·q` rounded to the nearest integer (computed as
`⌊100·q + 1/2⌋` over the exact rational; Python rounds the nearest binary
float instead, which only differs on exact half-cent boundaries). -/
def fixed2 (q : ℚ) : String :=
  let m : ℤ := Int.fdiv (2 * q.num * 100 + (q.den : ℤ)) (2 * (q.den : ℤ))
  let sign := if m < 0 then "-" else ""
  sign ++ Nat.repr (m.natAbs / 100) ++ "." ++ pad2 (m.natAbs % 100)

/-- The value space of `pct_change` in `src/bot.py`: a finite float
(modelled exactly as a rational) or the `float('inf')` sentinel. -/
inductive PctVal
  | infinite
  | val (q : ℚ)
  deriving DecidableEq

/-- `src/bot.py` lines 77–80:
`pct_change(old, new)` returns `inf` when `old == 0 < new`, `0.0` when
`old == 0` and `new <= 0`, and `(new - old) * 100.0 / old` otherwise. -/
def pct_change (old new : ℤ) : PctVal :=
  if old = 0 then (if 0 < new then .infinite else .val 0)
  else .val (((new : ℚ) - (old : ℚ)) * 100 / (old : ℚ))

/-- The substitution performed inside `line_for` (`src/bot.py` line 103):
`pc if pc != float('inf') else 100.0`. -/
def pcDisplay : PctVal → ℚ
  | .infinite => 100
  | .val q => q

/-- Python `f"{pc:.2f}"` applied to a possibly-infinite float
(`f"{float('inf'):.2f}"` renders as `"inf"`). -/
def fixedPct : PctVal → String
  | .infinite => "inf"
  | .val q => fixed2 q

/-- `COUNTRY_CODE_TO_NAME` from `src/bot.py` lines 15–33. -/
def COUNTRY_CODE_TO_NAME : List (String × String) :=
  [("US", "United States"), ("DE", "Germany"), ("FR", "France"),
   ("FI", "Finland"), ("CA", "Canada"), ("NL", "Netherlands"),
   ("GB", "United Kingdom"), ("CH", "Switzerland"), ("RU", "Russian Federation"),
   ("AU", "Australia"), ("SG", "Singapore"), ("JP", "Japan"),
   ("KR", "Korea (Republic of)"), ("CZ", "Czechia"), ("CN", "China"),
   ("BR", "Brazil"), ("IN", "India")]

/-- First-match association lookup with a default, as Python `dict.get`. -/
def lookupD (m : List (String × ℤ)) (k : String) (d : ℤ) : ℤ :=
  match m.find? (fun p => p.1 = k) with
  | some p => p.2
  | none => d

/-- `human_country` from `src/bot.py` lines 82–83. -/
def human_country (code : String) : String :=
  match COUNTRY_CODE_TO_NAME.find? (fun p => p.1 = code) with
  | some p => p.2
  | none => code

namespace Bot

/-- `arr[7]` guarded by `try/except` (`src/bot.py` lines 67–71): a too-short
record (`IndexError`) and a `null` field both yield `None`. -/
def ccOf (arr : List (Option String)) : Option String :=
  (arr.get? 7).join

/-- Whether `src/bot.py` line 72's `if not cc: continue` keeps the record:
true exactly when the country-code field is present and non-empty. -/
def classified (arr : List (Option String)) : Bool :=
  match ccOf arr with
  | some cc => !cc.isEmpty
  | none => false

/-- `counts[cc] += 1` on a `Counter`, preserving first-insertion order
(dict/Counter enumeration order in CPython). -/
def bump : List (String × ℤ) → String → List (String × ℤ)
  | [], k => [(k, 1)]
  | (k0, v) :: rest, k =>
    if k0 = k then (k0, v + 1) :: rest else (k0, v) :: bump rest k

/-- The counting loop of `summarize_by_country` (`src/bot.py` lines 66–74). -/
def count_fold (acc : List (String × ℤ)) : List (List (Option String)) → List (String × ℤ)
  | [] => acc
  | arr :: rest =>
    match ccOf arr with
    | some cc => if cc.isEmpty then count_fold acc rest else count_fold (bump acc cc) rest
    | none => count_fold acc rest

/-- `summarize_by_country` (`src/bot.py` lines 63–75).  The declared
`total_nodes` wins when present and non-zero (`snapshot.get("total_nodes")
or len(nodes)`); otherwise the number of raw node records is used. -/
def summarize_by_country (nodes : List (List (Option String)))
    (declared_total : Option ℤ) : ℤ × List (String × ℤ) :=
  let total_nodes : ℤ :=
    match declared_total with
    | some t => if t = 0 then (nodes.length : ℤ) else t
    | none => (nodes.length : ℤ)
  (total_nodes, count_fold [] nodes)

/-- `sorted(by_country_now.items(), key=lambda kv: kv[1], reverse=True)`
(`src/bot.py` line 88): a stable sort, descending on the count. -/
def sortDescCounts (l : List (String × ℤ)) : List (String × ℤ) :=
  List.insertionSort (fun a b => b.2 ≤ a.2) l

/-- `line_for` (`src/bot.py` lines 99–103): one per-country report line;
an infinite percentage is displayed as the fixed value `100.00`. -/
def line_for (code : String) (now prev : ℤ) : String :=
  let delta := now - prev
  let pc := pct_change prev now
  let sign := if 0 ≤ delta then "+" else ""
  human_country code ++ ": " ++ fmtCommaInt now ++ " (" ++ sign ++
    fmtCommaInt delta ++ ", " ++ fixed2 (pcDisplay pc) ++ "%)"

/-- The `lines` list built by `format_report` (`src/bot.py` lines 91–111):
total line, top-N per-country lines, optional Others line, footer.  The
header (line 92) only prepends a wall-clock timestamp string and is the one
part of the report left out of the model. -/
def format_report_lines (total_now total_prev : ℤ)
    (by_country_now by_country_prev : List (String × ℤ)) (top_n : ℕ) : List String :=
  let items := sortDescCounts by_country_now
  let top_items := items.take top_n
  let others_count := ((items.drop top_n).map (fun p => p.2)).sum
  let totalLine :=
    if total_prev ≠ 0 then
      let total_delta := total_now - total_prev
      let total_pct := pct_change total_prev total_now
      "Total: " ++ fmtCommaInt total_now ++ " (" ++
        (if 0 ≤ total_delta then "+" else "") ++ fmtCommaInt total_delta ++ ", " ++
        fixedPct total_pct ++ "%)"
    else
      "Total: " ++ fmtCommaInt total_now ++ " (first run)"
  let prev := by_country_prev
  let countryLines := top_items.map
    (fun p => "• " ++ line_for p.1 p.2 (lookupD prev p.1 0))
  let othersLines :=
    if others_count ≠ 0 then
      let others_prev :=
        ((prev.filter (fun q => !(top_items.any (fun t => t.1 = q.1)))).map
          (fun q => q.2)).sum
      ["• " ++ line_for "Others" others_count others_prev]
    else []
  [totalLine] ++ countryLines ++ othersLines ++
    ["\nSource: bitnodes.io — snapshot every ~10 min"]

/-- One HTTP request to the Telegram sendMessage endpoint. -/
structure TgRequest where
  url : String
  chat_id : String
  text : String
  disable_web_page_preview : Bool
  parse_mode : String
  deriving DecidableEq

/-- `send_telegram` (`src/bot.py` lines 114–123), modelled as the list of
HTTP POST requests it issues: always exactly one, carrying the whole text. -/
def send_telegram (token chat_id text : String) : List TgRequest :=
  [{ url := "https://api.telegram.org" ++ "/bot" ++ token ++ "/sendMessage",
     chat_id := chat_id,
     text := text,
     disable_web_page_preview := true,
     parse_mode := "HTML" }]

end Bot

namespace Once

/-- `fmt_change` (`src/bot_once.py` lines 51–57): `None` baseline (first run)
renders as the empty suffix; a zero baseline omits only the percentage. -/
def fmt_change (new : ℤ) (old : Option ℤ) : String :=
  match old with
  | none => ""
  | some o =>
    let diff := new - o
    let sign := if 0 < diff then "+" else ""
    let pct :=
      if o = 0 then ""
      else ", " ++ sign ++ fixed2 ((diff : ℚ) / (o : ℚ) * 100) ++ "%"
    " (" ++ sign ++ fmtCommaInt diff ++ pct ++ ")"

/-- The total line of `src/bot_once.py` line 98:
`f"Total: {total:,}{fmt_change(total, prev_total)}"`. -/
def total_line (total : ℤ) (prev_total : Option ℤ) : String :=
  "Total: " ++ fmtCommaInt total ++ fmt_change total prev_total

/-- `key = code if code else None` (`src/bot_once.py` line 34): an absent or
empty country code is bucketed under the `None` key. -/
def keyOf (code : Option String) : Option String :=
  match code with
  | some s => if s.isEmpty then none else some s
  | none => none

/-- `counts[key] = counts.get(key, 0) + 1` on a dict with `Option`al keys,
preserving first-insertion order. -/
def bumpOpt : List (Option String × ℤ) → Option String → List (Option String × ℤ)
  | [], k => [(k, 1)]
  | (k0, v) :: rest, k =>
    if k0 = k then (k0, v + 1) :: rest else (k0, v) :: bumpOpt rest k

/-- `summarize_by_country` (`src/bot_once.py` lines 29–36).  Unlike the
scheduled bot, `code = arr[7]` is unguarded: a record with fewer than 8
fields raises `IndexError`, modelled as `Except.error`, aborting the whole
aggregation. -/
def summarize_by_country (acc : List (Option String × ℤ)) :
    List (List (Option String)) → Except Unit (List (Option String × ℤ))
  | [] => .ok acc
  | arr :: rest =>
    match arr.get? 7 with
    | none => .error ()
    | some code => summarize_by_country (bumpOpt acc (keyOf code)) rest

/-- `(k if k is not None else "null")` (`src/bot_once.py` line 114): the
serialization token chosen for the unknown-country sentinel. -/
def normKey : Option String → String
  | none => "null"
  | some k => k

/-- Python `str.splitlines` restricted to `'\n'` terminators: split at every
newline, then drop the final empty piece a trailing newline would create. -/
def splitOnNl : List Char → List (List Char)
  | [] => [[]]
  | c :: cs =>
    if c = '\n' then [] :: splitOnNl cs
    else
      match splitOnNl cs with
      | [] => [[c]]
      | g :: gs => (c :: g) :: gs

/-- `text.splitlines()` (`src/bot_once.py` line 69) for texts whose only
line terminator is `'\n'`. -/
def pySplitlines (l : List Char) : List (List Char) :=
  if l = [] then []
  else if l.getLast? = some '\n' then (splitOnNl l).dropLast
  else splitOnNl l

/-- `"\n".join(...)` over character lists. -/
def joinNl : List (List Char) → List Char
  | [] => []
  | [g] => g
  | g :: gs => g ++ '\n' :: joinNl gs

/-- `add = len(line) + 1` (`src/bot_once.py` line 71). -/
def addLen (l : List Char) : ℕ :=
  l.length + 1

/-- The loop of `send_chunked` (`src/bot_once.py` lines 69–78), returning
the chunks as groups of lines; `chunk` is the pending group (most recent
line first) and `size` its accumulated `len(line) + 1` total. -/
def chunkGroups (chunkSize : ℕ) :
    List (List Char) → List (List Char) → ℕ → List (List (List Char))
  | [], chunk, _ => if chunk = [] then [] else [chunk.reverse]
  | line :: rest, chunk, size =>
    if chunkSize < size + addLen line ∧ chunk ≠ [] then
      chunk.reverse :: chunkGroups chunkSize rest [line] (addLen line)
    else
      chunkGroups chunkSize rest (line :: chunk) (size + addLen line)

/-- `send_chunked(text, chunk_size)` (`src/bot_once.py` lines 67–78),
as the list of message texts passed to `send_telegram`, in send order. -/
def send_chunked (chunkSize : ℕ) (text : List Char) : List (List Char) :=
  (chunkGroups chunkSize (pySplitlines text) [] 0).map joinNl

end Once


/-- The JSON values the state files use.  `json.dump` followed by
`json.load` is inverse on this fragment, so persistence is modelled at the
level of this AST rather than of the concrete syntax. -/
inductive Json
  | num (n : ℤ)
  | str (s : String)
  | obj (fields : List (String × Json))

/-- The outcome of opening and parsing a state file, as seen by `load`:
the file may be missing, unreadable, or unparseable, or hold a value. -/
inductive Storage (α : Type)
  | missing
  | unreadable
  | unparseable
  | valid (st : α)

namespace Bot

/-- The `state["last"]` entry written by `src/bot.py` lines 148–152. -/
structure LastEntry where
  ts : ℤ
  total : ℤ
  by_cc : List (String × ℤ)
  deriving DecidableEq

/-- `load_state` (`src/bot.py` lines 43–50): a missing file returns `{}`,
and any exception while reading or parsing is swallowed into `{}` as well.
`none` models a state dict without a usable `"last"` entry. -/
def load_state : Storage (Option LastEntry) → Option LastEntry
  | .missing => none
  | .unreadable => none
  | .unparseable => none
  | .valid st => st

/-- `prev_entry = state.get("last") or {}` then
`total_prev = int(prev_entry.get("total", 0))` (`src/bot.py` lines 143–144). -/
def prevTotal : Option LastEntry → ℤ
  | none => 0
  | some e => e.total

/-- `by_cc_prev = prev_entry.get("by_cc", {})` (`src/bot.py` line 145). -/
def prevByCC : Option LastEntry → List (String × ℤ)
  | none => []
  | some e => e.by_cc

/-- `requests.raise_for_status`: an HTTP status in `[400, 600)` raises. -/
def statusFails (s : ℤ) : Prop :=
  400 ≤ s ∧ s < 600

instance (s : ℤ) : Decidable (statusFails s) := by
  unfold statusFails
  infer_instance

/-- One iteration of the scheduled loop's `try` block (`src/bot.py` lines
139–157), returning the state dict as it stands when the iteration ends.
`fetch` is the outcome of `fetch_latest_snapshot` (nodes and declared
total), `post` the outcome of the Telegram POST (transport error, or a
status code that `raise_for_status` then inspects).  Any exception lands in
the `except` clause, skipping `save_state`, so the state survives unchanged. -/
def cycle (fetch : Except Unit (ℤ × List (List (Option String)) × Option ℤ))
    (post : Except Unit ℤ) (state : Option LastEntry) : Option LastEntry :=
  match fetch with
  | .error _ => state
  | .ok (ts, nodes, declared_total) =>
    let s := summarize_by_country nodes declared_total
    match post with
    | .error _ => state
    | .ok status =>
      if statusFails status then state
      else some { ts := ts, total := s.1, by_cc := s.2 }

end Bot

namespace Once

/-- The dict passed to `save_state` by `src/bot_once.py` line 115:
`{"total": total, "countries": normalized}` (keys already normalized). -/
structure State where
  total : ℤ
  countries : List (String × ℤ)
  deriving DecidableEq

/-- The JSON document `save_state` (`src/bot_once.py` lines 47–49) writes. -/
def save_state (st : State) : Json :=
  .obj [("total", .num st.total),
        ("countries", .obj (st.countries.map (fun p => (p.1, .num p.2))))]

/-- Reading back the `countries` object: every value must be a number. -/
def decodeCountries : List (String × Json) → Option (List (String × ℤ))
  | [] => some []
  | (k, .num v) :: rest => (decodeCountries rest).map (fun cs => (k, v) :: cs)
  | _ => none

/-- Interpreting a parsed state file as the structure `main` consumes. -/
def decodeState : Json → Option State
  | .obj [("total", .num t), ("countries", .obj fs)] =>
    (decodeCountries fs).map (fun cs => { total := t, countries := cs })
  | _ => none

/-- `load_state` (`src/bot_once.py` lines 38–45): `None` when the file is
missing or anything goes wrong while reading or parsing it. -/
def load_state : Storage Json → Option State
  | .missing => none
  | .unreadable => none
  | .unparseable => none
  | .valid j => decodeState j

/-- `src/bot_once.py` `main` (lines 82–115), with the two HTTP calls as
explicit outcomes.  There is no `try/except`: a fetch failure, a record
shorter than 8 fields, a missing `total_nodes` key, or a transport-level
failure of `requests.post` all kill the process before `save_state` runs
(`Except.error`).  The HTTP status of the Telegram response is never
inspected (`send_telegram` has no `raise_for_status`), so any transported
response — success or not — is followed by `save_state`. -/
def cycle (fetch : Except Unit (List (List (Option String)) × Option ℤ))
    (post : Except Unit ℤ) : Except Unit State :=
  match fetch with
  | .error _ => .error ()
  | .ok (nodes, declared_total) =>
    match declared_total with
    | none => .error ()
    | some total =>
      match summarize_by_country [] nodes with
      | .error _ => .error ()
      | .ok by_country =>
        match post with
        | .error _ => .error ()
        | .ok _status =>
          .ok { total := total,
                countries := by_country.map (fun p => (normKey p.1, p.2)) }

end Once

/-- The total `len(line) + 1` budget of a group of lines, the quantity
`send_chunked` accumulates in `size`. -/
def Once.sumAdd (g : List (List Char)) : ℕ :=
  (g.map Once.addLen).sum

/-- C1 counterexample: `fmt_change` in `src/bot_once.py` — a cited
implementation of the percentage-change rendering — produces no percentage
at all when the previous count is 0: for 0 → 0 the suffix is `" (0)"`
rather than a rendered 0%, and for 0 → 5 it is `" (+5)"` rather than an
infinite/new sentinel displayed as a fixed 100%; no `%` character appears
in either suffix, so the claimed three-way split does not hold for this
implementation. -/
theorem fmt_change_zero_prev_renders_no_percentage :
    Once.fmt_change 0 (some 0) = " (0)" ∧
    Once.fmt_change 5 (some 0) = " (+5)" ∧
    '%' ∉ (Once.fmt_change 0 (some 0)).data ∧
    '%' ∉ (Once.fmt_change 5 (some 0)).data := by
  refine ⟨by decide, by decide, by decide, by decide⟩

/-- C1 (amended): for non-negative integer counts, `src/bot.py`'s
`pct_change` follows the three-way case split — previous 0 and current 0
give 0%; previous 0 and current positive give the `float('inf')` sentinel,
which `line_for` displays as the fixed value `100.00`; otherwise the value
is `(current − previous)·100 / previous` — and never an arithmetic error.
`src/bot_once.py`'s `fmt_change` avoids the division differently: whenever
the previous count is 0 it omits the percentage entirely and renders only
the absolute delta, showing neither a 0% nor a 100% display value. -/
theorem pct_change_three_way_split (prev cur : ℤ) (hp : 0 ≤ prev) (hc : 0 ≤ cur) :
    (prev = 0 → cur = 0 → pct_change prev cur = .val 0) ∧
    (prev = 0 → 0 < cur →
      pct_change prev cur = .infinite ∧
      fixed2 (pcDisplay (pct_change prev cur)) = "100.00") ∧
    (0 < prev →
      pct_change prev cur = .val (((cur : ℚ) - (prev : ℚ)) * 100 / (prev : ℚ))) ∧
    (prev = 0 → Once.fmt_change cur (some prev) =
      " (" ++ (if 0 < cur then "+" else "") ++ fmtCommaInt cur ++ ")") := by
  refine ⟨fun h0 hc0 => ?_, fun h0 hcpos => ?_, fun hpos => ?_, fun h0 => ?_⟩
  · simp [pct_change, h0, hc0]
  · have hinf : pct_change prev cur = .infinite := by simp [pct_change, h0, hcpos]
    refine ⟨hinf, ?_⟩
    rw [hinf]
    decide
  · have : prev ≠ 0 := ne_of_gt hpos
    simp [pct_change, this]
  · subst h0
    simp [Once.fmt_change, sub_zero]

/-- Witness for `pct_change_three_way_split` at `prev = 0`, `cur = 5`. -/
theorem pct_change_three_way_split_witness :
    (0 : ℤ) ≤ 0 ∧ (0 : ℤ) ≤ 5 ∧
      (((0 : ℤ) = 0 → (5 : ℤ) = 0 → pct_change 0 5 = .val 0) ∧
       ((0 : ℤ) = 0 → (0 : ℤ) < 5 →
         pct_change 0 5 = .infinite ∧
         fixed2 (pcDisplay (pct_change 0 5)) = "100.00") ∧
       ((0 : ℤ) < 0 →
         pct_change 0 5 = .val ((((5 : ℤ)) : ℚ) - (((0 : ℤ)) : ℚ) * 100 / (((0 : ℤ)) : ℚ))) ∧
       ((0 : ℤ) = 0 → Once.fmt_change 5 (some 0) =
         " (" ++ (if (0 : ℤ) < 5 then "+" else "") ++ fmtCommaInt 5 ++ ")")) :=
  ⟨le_refl 0, by decide,
   (pct_change_three_way_split 0 5 (le_refl 0) (by decide)).1,
   (pct_change_three_way_split 0 5 (le_refl 0) (by decide)).2.1,
   fun h => absurd h (by decide),
   (pct_change_three_way_split 0 5 (le_refl 0) (by decide)).2.2.2⟩

/-- C2 counterexample: a record whose country-code field cannot be read
(here, an empty record, where `arr[7]` raises) is skipped by
`summarize_by_country` in `src/bot.py` — it lands in no bucket at all, so
the bucket counts add up to 1 although two node records were processed;
there is no `unknown` bucket. -/
theorem unclassified_record_not_counted :
    Bot.summarize_by_country [List.replicate 7 none ++ [some "US"], []] none =
      (2, [("US", 1)]) ∧
    (([("US", (1 : ℤ))].map (fun p => p.2)).sum = 1) ∧
    (1 : ℤ) ≠ 2 := by
  refine ⟨by decide, by decide, by decide⟩

/-- C2 (amended): in `src/bot.py`, a record whose country-code field is
absent, empty, or malformed is skipped entirely — it appears in no bucket —
and skipping it never disturbs the aggregation of the remaining records
(the fold over any record list equals the fold over just its classified
records, so a bad record cannot abort or alter the rest). -/
theorem bad_records_skipped_without_abort (nodes : List (List (Option String)))
    (acc : List (String × ℤ)) :
    Bot.count_fold acc nodes = Bot.count_fold acc (nodes.filter Bot.classified) := by
  induction nodes generalizing acc with
  | nil => rfl
  | cons arr rest ih =>
    cases h : Bot.ccOf arr with
    | none =>
      have hcl : Bot.classified arr = false := by simp [Bot.classified, h]
      simp [Bot.count_fold, h, List.filter_cons, hcl, ih]
    | some cc =>
      by_cases hcc : cc.isEmpty
      · have hcl : Bot.classified arr = false := by simp [Bot.classified, h, hcc]
        simp [Bot.count_fold, h, hcc, List.filter_cons, hcl, ih]
      · have hcl : Bot.classified arr = true := by simp [Bot.classified, h, hcc]
        simp [Bot.count_fold, h, hcc, List.filter_cons, hcl, ih]

/-- C3 counterexample: for the aggregation of a snapshot that declares 5
total nodes but classifies a single one, the report's top-N sum plus the
Others sum is 1, while the total line displays the declared 5. -/
theorem top_plus_others_misses_total :
    Bot.summarize_by_country [List.replicate 7 none ++ [some "US"]] (some 5) =
      (5, [("US", 1)]) ∧
    ((((Bot.sortDescCounts [("US", 1)]).take 15).map (fun p => p.2)).sum +
      (((Bot.sortDescCounts [("US", 1)]).drop 15).map (fun p => p.2)).sum = 1) ∧
    (1 : ℤ) ≠ 5 ∧
    (Bot.format_report_lines 5 0 [("US", 1)] [] 15).head? =
      some "Total: 5 (first run)" := by
  refine ⟨by decide, by decide, by decide, by decide⟩

/-- C3 (amended): the top-N counts plus the Others bucket account exactly
for the sum of all by-country counts of the aggregation; this equals the
total displayed on the total line only when the snapshot's declared total
equals the number of classified records. -/
theorem top_plus_others_accounts_for_classified (by_cc : List (String × ℤ)) (top_n : ℕ) :
    (((Bot.sortDescCounts by_cc).take top_n).map (fun p => p.2)).sum +
      (((Bot.sortDescCounts by_cc).drop top_n).map (fun p => p.2)).sum =
    (by_cc.map (fun p => p.2)).sum := by
  have hperm : (Bot.sortDescCounts by_cc).Perm by_cc :=
    List.perm_insertionSort _ _
  rw [← List.sum_append, ← List.map_append, List.take_append_drop]
  exact (hperm.map _).sum_eq

/-- When the previous total is 0 (no baseline), the first report line is the
first-run total line. -/
theorem format_report_lines_head_of_first_run (total_now : ℤ)
    (by_cc prev : List (String × ℤ)) (top_n : ℕ) :
    (Bot.format_report_lines total_now 0 by_cc prev top_n).head? =
      some ("Total: " ++ fmtCommaInt total_now ++ " (first run)") := by
  simp [Bot.format_report_lines]

/-- C6 counterexample: on a first run (previous baseline absent, so the
zero default is used), the per-country line of `src/bot.py`'s report still
carries a delta/percentage suffix (`(+5, 100.00%)`), although the total
line shows the first-run marker. -/
theorem first_run_country_line_keeps_suffix :
    (Bot.format_report_lines 5 0 [("US", 5)] [] 15).get? 1 =
      some "• United States: 5 (+5, 100.00%)" ∧
    (Bot.format_report_lines 5 0 [("US", 5)] [] 15).get? 0 =
      some "Total: 5 (first run)" := by
  refine ⟨by decide, by decide⟩

/-- C6 (amended): on a first run, `src/bot.py` marks the total line with
`(first run)` and no delta there, but each per-country line still renders a
delta suffix against a zero baseline (`(+count, 100.00%)`, or `0.00%` for a
zero count); `src/bot_once.py` instead omits the whole change suffix on
every line when the baseline is absent, including the total line, which
then shows no first-run marker. -/
theorem first_run_rendering :
    (∀ (total_now : ℤ) (by_cc prev : List (String × ℤ)) (top_n : ℕ),
      (Bot.format_report_lines total_now 0 by_cc prev top_n).head? =
        some ("Total: " ++ fmtCommaInt total_now ++ " (first run)")) ∧
    (∀ (code : String) (now : ℕ),
      Bot.line_for code (now : ℤ) 0 =
        human_country code ++ ": " ++ fmtCommaInt (now : ℤ) ++ " (" ++ "+" ++
          fmtCommaInt (now : ℤ) ++ ", " ++
          (if now = 0 then "0.00" else "100.00") ++ "%)") ∧
    (∀ new : ℤ, Once.fmt_change new none = "") ∧
    (∀ total : ℤ, Once.total_line total none = "Total: " ++ fmtCommaInt total) := by
  refine ⟨format_report_lines_head_of_first_run, fun code now => ?_, fun _ => rfl, fun total => ?_⟩
  · have hsign : (if 0 ≤ ((now : ℕ) : ℤ) then "+" else "") = "+" :=
      if_pos (Int.natCast_nonneg now)
    have hfx : fixed2 (pcDisplay (pct_change 0 ((now : ℕ) : ℤ))) =
        (if now = 0 then "0.00" else "100.00") := by
      rcases Nat.eq_zero_or_pos now with h0 | hpos
      · subst h0
        decide
      · have hne : now ≠ 0 := Nat.pos_iff_ne_zero.mp hpos
        have hlt : (0 : ℤ) < (now : ℤ) := by exact_mod_cast hpos
        have hpc : pct_change 0 (now : ℤ) = .infinite := by simp [pct_change, hlt]
        rw [if_neg hne, hpc]
        decide
    simp only [Bot.line_for, sub_zero, hsign, hfx]
  · show "Total: " ++ fmtCommaInt total ++ Once.fmt_change total none =
      "Total: " ++ fmtCommaInt total
    rw [show Once.fmt_change total none = "" from rfl]
    simp

/-- C7 counterexample: two aggregations with the same country-to-count
mapping (one a permutation of the other) sort to different outputs, because
Python's stable sort keeps the enumeration order on equal counts instead of
breaking ties by country code; the second run's tie order `US, DE` is not
code-ascending. -/
theorem tie_order_depends_on_enumeration :
    ([(("DE" : String), (5 : ℤ)), ("US", 5)]).Perm [("US", 5), ("DE", 5)] ∧
    Bot.sortDescCounts [("DE", 5), ("US", 5)] = [("DE", 5), ("US", 5)] ∧
    Bot.sortDescCounts [("US", 5), ("DE", 5)] = [("US", 5), ("DE", 5)] ∧
    Bot.sortDescCounts [("DE", 5), ("US", 5)] ≠
      Bot.sortDescCounts [("US", 5), ("DE", 5)] :=
  ⟨List.Perm.swap ("US", 5) ("DE", 5) [], by decide, by decide, by decide⟩

/-- Helper: a stable sort leaves a list whose keys are all tied untouched. -/
theorem sortDescCounts_of_all_tied (l : List (String × ℤ))
    (h : ∀ p ∈ l, ∀ q ∈ l, p.2 = q.2) : Bot.sortDescCounts l = l := by
  induction l with
  | nil => rfl
  | cons a t ih =>
    have ht : Bot.sortDescCounts t = t :=
      ih (fun p hp q hq => h p (List.mem_cons_of_mem _ hp) q (List.mem_cons_of_mem _ hq))
    unfold Bot.sortDescCounts at ht ⊢
    rw [List.insertionSort, ht]
    cases t with
    | nil => rfl
    | cons b t2 =>
      have hle : b.2 ≤ a.2 :=
        le_of_eq (h b (List.mem_cons_of_mem _ (List.mem_cons_self _ _)) a
          (List.mem_cons_self _ _))
      exact List.orderedInsert_of_le _ _ hle

/-- C7 (amended): top-N selection sorts by current count descending with a
stable sort — the result is a permutation of the aggregation's items,
sorted by count descending — and ties between equal counts keep the
mapping's enumeration order (an all-tied list is returned unchanged), so
the output order depends on enumeration order rather than on country code. -/
theorem sort_desc_stable (l : List (String × ℤ)) :
    (Bot.sortDescCounts l).Perm l ∧
    List.Sorted (fun a b : String × ℤ => b.2 ≤ a.2) (Bot.sortDescCounts l) ∧
    ((∀ p ∈ l, ∀ q ∈ l, p.2 = q.2) → Bot.sortDescCounts l = l) := by
  refine ⟨List.perm_insertionSort _ _, ?_, sortDescCounts_of_all_tied l⟩
  haveI : IsTotal (String × ℤ) (fun a b => b.2 ≤ a.2) := ⟨fun a b => le_total b.2 a.2⟩
  haveI : IsTrans (String × ℤ) (fun a b => b.2 ≤ a.2) :=
    ⟨fun _ _ _ hab hbc => le_trans hbc hab⟩
  exact List.sorted_insertionSort _ l

/-- Witness for `sort_desc_stable` at a concrete two-element tie. -/
theorem sort_desc_stable_witness :
    (∀ p ∈ [(("DE" : String), (5 : ℤ)), ("US", 5)],
      ∀ q ∈ [(("DE" : String), (5 : ℤ)), ("US", 5)], p.2 = q.2) ∧
    Bot.sortDescCounts [("DE", 5), ("US", 5)] = [("DE", 5), ("US", 5)] :=
  ⟨by decide, (sort_desc_stable [("DE", 5), ("US", 5)]).2.2 (by decide)⟩

/-- C10: `send_telegram` in `src/bot.py` issues exactly one POST request,
and that single request carries the full report text unchanged, whatever
its length — there is no size-based splitting in the scheduled bot. -/
theorem send_telegram_single_request (token chat_id text : String) :
    Bot.send_telegram token chat_id text =
      [{ url := "https://api.telegram.org" ++ "/bot" ++ token ++ "/sendMessage",
         chat_id := chat_id,
         text := text,
         disable_web_page_preview := true,
         parse_mode := "HTML" }] ∧
    (Bot.send_telegram token chat_id text).length = 1 :=
  ⟨rfl, rfl⟩

/-- C8: for every storage failure — file missing, unreadable, or
unparseable — both bots' `load_state` return the absent-baseline value
instead of raising, and with that absent baseline the previous total
defaults to 0, so the cycle's report opens with the first-run total line. -/
theorem load_state_failure_is_absent :
    (Bot.load_state .missing = none ∧ Bot.load_state .unreadable = none ∧
      Bot.load_state .unparseable = none) ∧
    (Once.load_state .missing = none ∧ Once.load_state .unreadable = none ∧
      Once.load_state .unparseable = none) ∧
    Bot.prevTotal (Bot.load_state .missing) = 0 ∧
    (∀ (total_now : ℤ) (by_cc : List (String × ℤ)) (top_n : ℕ),
      (Bot.format_report_lines total_now (Bot.prevTotal (Bot.load_state .unparseable))
          by_cc (Bot.prevByCC (Bot.load_state .unparseable)) top_n).head? =
        some ("Total: " ++ fmtCommaInt total_now ++ " (first run)")) :=
  ⟨⟨rfl, rfl, rfl⟩, ⟨rfl, rfl, rfl⟩, rfl,
   fun total_now by_cc top_n =>
     format_report_lines_head_of_first_run total_now by_cc [] top_n⟩

/-- `decodeCountries` inverts the encoding `save_state` applies to the
per-country mapping. -/
theorem decodeCountries_encode (cs : List (String × ℤ)) :
    Once.decodeCountries (cs.map (fun p => (p.1, Json.num p.2))) = some cs := by
  induction cs with
  | nil => rfl
  | cons p rest ih =>
    obtain ⟨k, v⟩ := p
    simp [Once.decodeCountries, ih]

/-- C9: saving a persisted state and loading it back yields an equal
structure — including when the by-country mapping uses the serialized
unknown sentinel `"null"` as a key — and that sentinel, the serialization
of `None`, never collides with a literal two-letter country code (it only
collides with the literal four-character string `"null"`). -/
theorem state_round_trip_and_sentinel :
    (∀ st : Once.State,
      Once.load_state (.valid (Once.save_state st)) = some st) ∧
    Once.normKey none = "null" ∧
    (∀ c : String, c.length = 2 → Once.normKey none ≠ c) ∧
    (∀ k : String, Once.normKey (some k) = Once.normKey none → k = "null") := by
  refine ⟨fun st => ?_, rfl, fun c hlen hcol => ?_, fun k hk => hk⟩
  · show Once.decodeState (Once.save_state st) = some st
    cases st with
    | mk total countries =>
      simp [Once.save_state, Once.decodeState, decodeCountries_encode]
  · rw [← hcol] at hlen
    exact absurd hlen (by decide)

/-- Witness for `state_round_trip_and_sentinel`: a state whose mapping
holds the sentinel key round-trips, and the sentinel differs from `"US"`. -/
theorem state_round_trip_and_sentinel_witness :
    Once.load_state
        (.valid (Once.save_state { total := 7, countries := [("null", 3), ("US", 4)] })) =
      some { total := 7, countries := [("null", 3), ("US", 4)] } ∧
    ("US".length = 2 ∧ Once.normKey none ≠ "US") :=
  ⟨state_round_trip_and_sentinel.1 _,
   by decide,
   state_round_trip_and_sentinel.2.2.1 "US" (by decide)⟩

/-- C4 counterexample: with the messaging endpoint answering HTTP 500 — a
status `src/bot.py`'s own `raise_for_status` treats as a delivery failure —
`src/bot_once.py` still reaches `save_state` and advances the baseline
(its `send_telegram` never checks the response), while `src/bot.py` leaves
the persisted state untouched on the same outcome. -/
theorem baseline_advances_on_failed_delivery :
    Once.cycle (.ok ([List.replicate 7 none ++ [some "US"]], some 3)) (.ok 500) =
      .ok { total := 3, countries := [("US", 1)] } ∧
    Bot.statusFails 500 ∧
    Bot.cycle (.ok (1700000000, [List.replicate 7 none ++ [some "US"]], some 3))
        (.ok 500) none = none :=
  ⟨rfl, by decide, rfl⟩

/-- C4 (amended): in `src/bot.py` the baseline is persisted only after a
fully successful cycle — a fetch failure, a transport failure of the POST,
or a non-success HTTP status (which `raise_for_status` turns into an
exception) all leave the persisted state exactly as it was.  In
`src/bot_once.py` a fetch failure or a transport-level delivery failure
likewise prevents `save_state` from running, but a delivered response is
never checked for success, so a non-success status still advances the
baseline (see the counterexample). -/
theorem persisted_state_on_failed_cycle :
    (∀ fetch st, Bot.cycle fetch (.error ()) st = st) ∧
    (∀ post st, Bot.cycle (.error ()) post st = st) ∧
    (∀ fetch status st, Bot.statusFails status → Bot.cycle fetch (.ok status) st = st) ∧
    (∀ fetch, Once.cycle fetch (.error ()) = .error ()) ∧
    (∀ post, Once.cycle (.error ()) post = .error ()) := by
  refine ⟨fun fetch st => ?_, fun post st => rfl, fun fetch status st hfail => ?_,
    fun fetch => ?_, fun post => rfl⟩
  · cases fetch with
    | error e => rfl
    | ok v =>
      obtain ⟨ts, nodes, declared⟩ := v
      rfl
  · cases fetch with
    | error e => rfl
    | ok v =>
      obtain ⟨ts, nodes, declared⟩ := v
      simp [Bot.cycle, hfail]
  · cases fetch with
    | error e => rfl
    | ok v =>
      obtain ⟨nodes, declared⟩ := v
      cases declared with
      | none => rfl
      | some total =>
        cases h : Once.summarize_by_country [] nodes with
        | error e => simp [Once.cycle, h]
        | ok cs => simp [Once.cycle, h]

/-- Witness for `persisted_state_on_failed_cycle` at HTTP status 500. -/
theorem persisted_state_on_failed_cycle_witness :
    Bot.statusFails 500 ∧
    Bot.cycle (.ok (0, [], none)) (.ok 500)
        (some { ts := 1, total := 2, by_cc := [] }) =
      some { ts := 1, total := 2, by_cc := [] } :=
  ⟨by decide,
   persisted_state_on_failed_cycle.2.2.1 (.ok (0, [], none)) 500
     (some { ts := 1, total := 2, by_cc := [] }) (by decide)⟩

/-- `splitOnNl` always yields at least one piece. -/
theorem splitOnNl_ne_nil (l : List Char) : Once.splitOnNl l ≠ [] := by
  cases l with
  | nil => simp [Once.splitOnNl]
  | cons c cs =>
    by_cases h : c = '\n'
    · simp [Once.splitOnNl, h]
    · simp only [Once.splitOnNl, if_neg h]
      cases hs : Once.splitOnNl cs with
      | nil => simp
      | cons g gs => simp

/-- Joining the pieces of `splitOnNl` with newlines restores the text. -/
theorem joinNl_splitOnNl (l : List Char) : Once.joinNl (Once.splitOnNl l) = l := by
  induction l with
  | nil => rfl
  | cons c cs ih =>
    by_cases h : c = '\n'
    · subst h
      rw [show Once.splitOnNl ('\n' :: cs) = [] :: Once.splitOnNl cs from by
        simp [Once.splitOnNl]]
      cases hs : Once.splitOnNl cs with
      | nil => exact absurd hs (splitOnNl_ne_nil cs)
      | cons g gs =>
        rw [hs] at ih
        show Once.joinNl ([] :: g :: gs) = '\n' :: cs
        rw [show Once.joinNl ([] :: g :: gs) = [] ++ '\n' :: Once.joinNl (g :: gs) from rfl]
        rw [ih]
        rfl
    · rw [show Once.splitOnNl (c :: cs) =
          (match Once.splitOnNl cs with
           | [] => [[c]]
           | g :: gs => (c :: g) :: gs) from by simp [Once.splitOnNl, h]]
      cases hs : Once.splitOnNl cs with
      | nil => exact absurd hs (splitOnNl_ne_nil cs)
      | cons g gs =>
        rw [hs] at ih
        cases gs with
        | nil =>
          show Once.joinNl [c :: g] = c :: cs
          have : Once.joinNl [g] = cs := ih
          show c :: g = c :: cs
          rw [show g = Once.joinNl [g] from rfl, this]
        | cons g2 gs2 =>
          show Once.joinNl ((c :: g) :: g2 :: gs2) = c :: cs
          rw [show Once.joinNl ((c :: g) :: g2 :: gs2) =
            (c :: g) ++ '\n' :: Once.joinNl (g2 :: gs2) from rfl]
          rw [← ih]
          rfl

/-- The `len(line) + 1` budget of the split pieces is the text length plus
one (each piece costs its length plus the newline that separated it). -/
theorem sumAdd_splitOnNl (l : List Char) :
    Once.sumAdd (Once.splitOnNl l) = l.length + 1 := by
  induction l with
  | nil => rfl
  | cons c cs ih =>
    by_cases h : c = '\n'
    · rw [show Once.splitOnNl (c :: cs) = [] :: Once.splitOnNl cs from by
        simp [Once.splitOnNl, h]]
      simp only [Once.sumAdd, List.map_cons, List.sum_cons] at ih ⊢
      simp [Once.addLen, ih]
      omega
    · rw [show Once.splitOnNl (c :: cs) =
          (match Once.splitOnNl cs with
           | [] => [[c]]
           | g :: gs => (c :: g) :: gs) from by simp [Once.splitOnNl, h]]
      cases hs : Once.splitOnNl cs with
      | nil => exact absurd hs (splitOnNl_ne_nil cs)
      | cons g gs =>
        rw [hs] at ih
        simp only [Once.sumAdd, List.map_cons, List.sum_cons, Once.addLen] at ih ⊢
        simp only [List.length_cons]
        omega

/-- A nonempty text without a newline splits into itself alone. -/
theorem splitOnNl_no_newline (l : List Char) (h : '\n' ∉ l) :
    Once.splitOnNl l = [l] := by
  induction l with
  | nil => rfl
  | cons c cs ih =>
    have hc : c ≠ '\n' := fun hc => h (hc ▸ List.mem_cons_self c cs)
    have hcs : '\n' ∉ cs := fun hm => h (List.mem_cons_of_mem c hm)
    rw [show Once.splitOnNl (c :: cs) =
        (match Once.splitOnNl cs with
         | [] => [[c]]
         | g :: gs => (c :: g) :: gs) from by simp [Once.splitOnNl, hc]]
    rw [ih hcs]

/-- For a nonempty text not ending in a newline, `splitlines` is exactly
`splitOnNl` (the trailing-empty-piece correction never fires). -/
theorem pySplitlines_eq_splitOnNl (l : List Char) (hne : l ≠ [])
    (hlast : l.getLast? ≠ some '\n') :
    Once.pySplitlines l = Once.splitOnNl l := by
  unfold Once.pySplitlines
  rw [if_neg hne, if_neg hlast]

/-- Unfolding `joinNl` over a cons with a nonempty tail. -/
theorem joinNl_cons_of_ne_nil (g : List Char) (gs : List (List Char)) (h : gs ≠ []) :
    Once.joinNl (g :: gs) = g ++ '\n' :: Once.joinNl gs := by
  cases gs with
  | nil => exact absurd rfl h
  | cons g2 gs2 => rfl

/-- `"\n".join` distributes over concatenation of nonempty groups. -/
theorem joinNl_append (a b : List (List Char)) (ha : a ≠ []) (hb : b ≠ []) :
    Once.joinNl (a ++ b) = Once.joinNl a ++ '\n' :: Once.joinNl b := by
  induction a with
  | nil => exact absurd rfl ha
  | cons g a2 ih =>
    cases a2 with
    | nil =>
      rw [List.singleton_append, joinNl_cons_of_ne_nil g b hb]
      rfl
    | cons g2 a3 =>
      rw [List.cons_append, joinNl_cons_of_ne_nil g ((g2 :: a3) ++ b) (by simp),
        ih (by simp), joinNl_cons_of_ne_nil g (g2 :: a3) (by simp), List.append_assoc]
      rfl

/-- `joinNl` of a single group is the group itself. -/
theorem joinNl_singleton (g : List Char) : Once.joinNl [g] = g :=
  rfl

/-- A concatenation of groups that are all nonempty, with at least one
group, is nonempty. -/
theorem flatten_ne_nil_of_all_ne_nil (gs : List (List (List Char))) (hne : gs ≠ [])
    (h : ∀ g ∈ gs, g ≠ []) : gs.flatten ≠ [] := by
  cases gs with
  | nil => exact absurd rfl hne
  | cons g gs2 =>
    have hg : g ≠ [] := h g (List.mem_cons_self _ _)
    cases g with
    | nil => exact absurd rfl hg
    | cons l g2 => simp

/-- Joining each group and then joining the results with newlines is the
same as joining all the lines with newlines, for nonempty groups. -/
theorem joinNl_map_joinNl (gs : List (List (List Char))) (h : ∀ g ∈ gs, g ≠ []) :
    Once.joinNl (gs.map Once.joinNl) = Once.joinNl gs.flatten := by
  induction gs with
  | nil => rfl
  | cons g rest ih =>
    have hg : g ≠ [] := h g (List.mem_cons_self _ _)
    have hrest : ∀ g2 ∈ rest, g2 ≠ [] := fun g2 hm => h g2 (List.mem_cons_of_mem _ hm)
    cases hr : rest with
    | nil =>
      rw [List.map_cons, List.map_nil, joinNl_singleton]
      simp
    | cons r rest2 =>
      rw [← hr]
      have hrne : rest ≠ [] := by rw [hr]; simp
      have hjoin : rest.flatten ≠ [] :=
        flatten_ne_nil_of_all_ne_nil rest hrne hrest
      rw [List.map_cons,
        joinNl_cons_of_ne_nil (Once.joinNl g) (rest.map Once.joinNl) (by
          intro hmap
          exact hrne (List.map_eq_nil_iff.mp hmap)),
        ih hrest, List.flatten_cons, joinNl_append g rest.flatten hg hjoin]

/-- The length of a joined nonempty group, plus one, is its size budget. -/
theorem joinNl_length (g : List (List Char)) (h : g ≠ []) :
    (Once.joinNl g).length + 1 = Once.sumAdd g := by
  induction g with
  | nil => exact absurd rfl h
  | cons l g2 ih =>
    cases g2 with
    | nil => simp [Once.joinNl, Once.sumAdd, Once.addLen]
    | cons l2 g3 =>
      rw [joinNl_cons_of_ne_nil l (l2 :: g3) (by simp)]
      have := ih (by simp)
      simp only [Once.sumAdd, List.map_cons, List.sum_cons, Once.addLen] at this ⊢
      simp only [List.length_append, List.length_cons]
      omega

/-- The chunks cover exactly the input lines, in order: flattening the
groups recovers the pending chunk followed by the remaining lines. -/
theorem chunkGroups_flatten (c : ℕ) (lines : List (List Char)) :
    ∀ (chunk : List (List Char)) (size : ℕ),
    (Once.chunkGroups c lines chunk size).flatten = chunk.reverse ++ lines := by
  induction lines with
  | nil =>
    intro chunk size
    by_cases h : chunk = []
    · simp [Once.chunkGroups, h]
    · simp [Once.chunkGroups, h]
  | cons line rest ih =>
    intro chunk size
    by_cases h : c < size + Once.addLen line ∧ chunk ≠ []
    · rw [show Once.chunkGroups c (line :: rest) chunk size =
          chunk.reverse :: Once.chunkGroups c rest [line] (Once.addLen line) from by
        simp [Once.chunkGroups, h]]
      rw [List.flatten_cons, ih]
      simp
    · rw [show Once.chunkGroups c (line :: rest) chunk size =
          Once.chunkGroups c rest (line :: chunk) (size + Once.addLen line) from by
        simp [Once.chunkGroups, h]]
      rw [ih]
      simp

/-- Every emitted group is nonempty and fits the size budget, provided
every line fits it on its own. -/
theorem chunkGroups_groups_bounded (c : ℕ) (lines : List (List Char)) :
    ∀ (chunk : List (List Char)) (size : ℕ),
    (∀ l ∈ lines, Once.addLen l ≤ c) →
    size = Once.sumAdd chunk →
    (chunk ≠ [] → size ≤ c) →
    ∀ g ∈ Once.chunkGroups c lines chunk size, g ≠ [] ∧ Once.sumAdd g ≤ c := by
  induction lines with
  | nil =>
    intro chunk size hlines hsize hbound g hg
    by_cases h : chunk = []
    · rw [show Once.chunkGroups c [] chunk size = [] from by
        simp [Once.chunkGroups, h]] at hg
      exact absurd hg (List.not_mem_nil g)
    · rw [show Once.chunkGroups c [] chunk size = [chunk.reverse] from by
        simp [Once.chunkGroups, h]] at hg
      rw [List.mem_singleton] at hg
      subst hg
      refine ⟨by simpa using h, ?_⟩
      have hrev : Once.sumAdd chunk.reverse = Once.sumAdd chunk := by
        simp [Once.sumAdd, List.sum_reverse]
      rw [hrev, ← hsize]
      exact hbound h
  | cons line rest ih =>
    intro chunk size hlines hsize hbound g hg
    have hline : Once.addLen line ≤ c := hlines line (List.mem_cons_self _ _)
    have hrest : ∀ l ∈ rest, Once.addLen l ≤ c :=
      fun l hm => hlines l (List.mem_cons_of_mem _ hm)
    by_cases h : c < size + Once.addLen line ∧ chunk ≠ []
    · rw [show Once.chunkGroups c (line :: rest) chunk size =
          chunk.reverse :: Once.chunkGroups c rest [line] (Once.addLen line) from by
        simp [Once.chunkGroups, h]] at hg
      rcases List.mem_cons.mp hg with hg1 | hg2
      · subst hg1
        refine ⟨by simpa using h.2, ?_⟩
        have hrev : Once.sumAdd chunk.reverse = Once.sumAdd chunk := by
          simp [Once.sumAdd, List.sum_reverse]
        rw [hrev, ← hsize]
        exact hbound h.2
      · exact ih [line] (Once.addLen line) hrest (by simp [Once.sumAdd])
          (fun _ => hline) g hg2
    · rw [show Once.chunkGroups c (line :: rest) chunk size =
          Once.chunkGroups c rest (line :: chunk) (size + Once.addLen line) from by
        simp [Once.chunkGroups, h]] at hg
      have hsize2 : size + Once.addLen line = Once.sumAdd (line :: chunk) := by
        rw [hsize]
        simp only [Once.sumAdd, List.map_cons, List.sum_cons]
        omega
      have hbound2 : (line :: chunk) ≠ [] → size + Once.addLen line ≤ c := by
        intro _
        by_cases hch : chunk = []
        · subst hch
          simp only [Once.sumAdd, List.map_nil, List.sum_nil] at hsize
          omega
        · have h2 : ¬ c < size + Once.addLen line := fun hlt => h ⟨hlt, hch⟩
          omega
      exact ih (line :: chunk) (size + Once.addLen line) hrest hsize2 hbound2 g hg

/-- `sumAdd` is additive over flattening. -/
theorem sumAdd_flatten (gs : List (List (List Char))) :
    Once.sumAdd gs.flatten = (gs.map Once.sumAdd).sum := by
  induction gs with
  | nil => rfl
  | cons g rest ih =>
    simp only [List.flatten_cons, Once.sumAdd, List.map_append, List.sum_append,
      List.map_cons, List.sum_cons]
    rw [← ih]
    rfl

/-- When the lines' total budget exceeds the chunk size but every line fits
it, at least two chunks are produced. -/
theorem chunkGroups_at_least_two (c : ℕ) (lines : List (List Char))
    (hlines : ∀ l ∈ lines, Once.addLen l ≤ c) (hbig : c < Once.sumAdd lines) :
    2 ≤ (Once.chunkGroups c lines [] 0).length := by
  have hflat := chunkGroups_flatten c lines [] 0
  simp only [List.reverse_nil, List.nil_append] at hflat
  have hb : ∀ g ∈ Once.chunkGroups c lines [] 0, g ≠ [] ∧ Once.sumAdd g ≤ c :=
    chunkGroups_groups_bounded c lines [] 0 hlines (by simp [Once.sumAdd])
      (fun hh => absurd rfl hh)
  cases hgs : Once.chunkGroups c lines [] 0 with
  | nil =>
    rw [hgs] at hflat
    simp only [List.flatten_nil] at hflat
    rw [← hflat] at hbig
    simp [Once.sumAdd] at hbig
  | cons g t =>
    cases t with
    | nil =>
      rw [hgs] at hflat
      simp only [List.flatten_cons, List.flatten_nil, List.append_nil] at hflat
      have hgmem := hb g (by rw [hgs]; exact List.mem_singleton_self g)
      rw [hflat] at hgmem
      omega
    | cons g2 t2 => simp

/-- A nonempty single-line text is returned as one chunk, whatever the
chunk size: the `and chunk` guard never flushes an empty pending chunk. -/
theorem send_chunked_single_line (c : ℕ) (l : List Char) (hne : l ≠ [])
    (hnl : '\n' ∉ l) : Once.send_chunked c l = [l] := by
  have hlast : l.getLast? ≠ some '\n' := by
    intro hl
    have hx : '\n' ∈ l.getLast? := by rw [hl]; rfl
    obtain ⟨hh, hx2⟩ := List.mem_getLast?_eq_getLast hx
    exact hnl (hx2 ▸ List.getLast_mem hh)
  unfold Once.send_chunked
  rw [pySplitlines_eq_splitOnNl l hne hlast, splitOnNl_no_newline l hnl]
  rw [show Once.chunkGroups c [l] [] 0 =
      Once.chunkGroups c [] [l] (0 + Once.addLen l) from by
    simp [Once.chunkGroups]]
  rw [show Once.chunkGroups c [] [l] (0 + Once.addLen l) = [[l].reverse] from by
    simp [Once.chunkGroups]]
  simp [joinNl_singleton]

/-- C5 counterexample: a report text that is a single 3801-character line
exceeds the 3800-character chunk size, yet `send_chunked` emits exactly one
chunk, and that chunk is the whole oversized line — neither the ≥2-chunk
guarantee nor the per-chunk size bound holds for such texts. -/
theorem send_chunked_oversized_single_line :
    Once.send_chunked 3800 (List.replicate 3801 'a') = [List.replicate 3801 'a'] ∧
    (Once.send_chunked 3800 (List.replicate 3801 'a')).length = 1 ∧
    (List.replicate 3801 'a').length = 3801 ∧
    3800 < (List.replicate 3801 'a').length := by
  have hne : List.replicate 3801 'a' ≠ [] := by
    intro h
    have hlen := congrArg List.length h
    rw [List.length_replicate, List.length_nil] at hlen
    exact absurd hlen (by decide)
  have hnl : '\n' ∉ List.replicate 3801 'a' := by
    intro hm
    exact absurd (List.eq_of_mem_replicate hm) (by decide)
  have hsc := send_chunked_single_line 3800 (List.replicate 3801 'a') hne hnl
  have hlen : (List.replicate 3801 'a').length = 3801 := List.length_replicate 3801 'a'
  refine ⟨hsc, by rw [hsc]; rfl, hlen, by rw [hlen]; decide⟩

/-- C5 (amended): for a nonempty report text longer than the chunk size
that does not end in a newline and in which every line together with its
newline fits the chunk size, `send_chunked` produces at least two chunks,
each chunk at most the chunk size, chunk boundaries fall only at line
boundaries with the lines kept in read order (flattening the groups of
lines gives back exactly the split lines), and joining the chunks with a
newline reproduces the original text exactly.  (For a text with a single
oversized line, or ending in a newline, the claim fails — see the
counterexample.) -/
theorem send_chunked_spec (c : ℕ) (text : List Char)
    (hne : text ≠ []) (hlast : text.getLast? ≠ some '\n')
    (hfit : ∀ l ∈ Once.pySplitlines text, Once.addLen l ≤ c)
    (hbig : c < text.length) :
    2 ≤ (Once.send_chunked c text).length ∧
    (∀ chunkText ∈ Once.send_chunked c text, chunkText.length ≤ c) ∧
    (Once.chunkGroups c (Once.pySplitlines text) [] 0).flatten =
      Once.pySplitlines text ∧
    Once.joinNl (Once.send_chunked c text) = text := by
  have hps : Once.pySplitlines text = Once.splitOnNl text :=
    pySplitlines_eq_splitOnNl text hne hlast
  have hsum : Once.sumAdd (Once.pySplitlines text) = text.length + 1 := by
    rw [hps, sumAdd_splitOnNl]
  have hbig2 : c < Once.sumAdd (Once.pySplitlines text) := by omega
  have hflat := chunkGroups_flatten c (Once.pySplitlines text) [] 0
  simp only [List.reverse_nil, List.nil_append] at hflat
  have hb := chunkGroups_groups_bounded c (Once.pySplitlines text) [] 0 hfit
    (by simp [Once.sumAdd]) (fun hh => absurd rfl hh)
  refine ⟨?_, ?_, hflat, ?_⟩
  · unfold Once.send_chunked
    rw [List.length_map]
    exact chunkGroups_at_least_two c (Once.pySplitlines text) hfit hbig2
  · intro ct hct
    unfold Once.send_chunked at hct
    obtain ⟨g, hg, rfl⟩ := List.mem_map.mp hct
    obtain ⟨hgne, hgsum⟩ := hb g hg
    have := joinNl_length g hgne
    omega
  · unfold Once.send_chunked
    rw [joinNl_map_joinNl _ (fun g hg => (hb g hg).1), hflat, hps, joinNl_splitOnNl]

/-- Witness for `send_chunked_spec`: the three-line text `"ab\ncd\nef"`
with chunk size 5 splits into the chunks `"ab"`, `"cd"`, `"ef"`. -/
theorem send_chunked_spec_witness :
    (['a', 'b', '\n', 'c', 'd', '\n', 'e', 'f'] ≠ ([] : List Char)) ∧
    (['a', 'b', '\n', 'c', 'd', '\n', 'e', 'f'].getLast? ≠ some '\n') ∧
    (∀ l ∈ Once.pySplitlines ['a', 'b', '\n', 'c', 'd', '\n', 'e', 'f'],
      Once.addLen l ≤ 5) ∧
    5 < (['a', 'b', '\n', 'c', 'd', '\n', 'e', 'f'] : List Char).length ∧
    (2 ≤ (Once.send_chunked 5 ['a', 'b', '\n', 'c', 'd', '\n', 'e', 'f']).length ∧
     (∀ chunkText ∈ Once.send_chunked 5 ['a', 'b', '\n', 'c', 'd', '\n', 'e', 'f'],
       chunkText.length ≤ 5) ∧
     (Once.chunkGroups 5
        (Once.pySplitlines ['a', 'b', '\n', 'c', 'd', '\n', 'e', 'f']) [] 0).flatten =
       Once.pySplitlines ['a', 'b', '\n', 'c', 'd', '\n', 'e', 'f'] ∧
     Once.joinNl (Once.send_chunked 5 ['a', 'b', '\n', 'c', 'd', '\n', 'e', 'f']) =
       ['a', 'b', '\n', 'c', 'd', '\n', 'e', 'f']) :=
  ⟨by decide, by decide, by decide, by decide,
   send_chunked_spec 5 ['a', 'b', '\n', 'c', 'd', '\n', 'e', 'f']
     (by decide) (by decide) (by decide) (by decide)⟩
